import Mathlib

/-!
Verification of the reconciliation and validation scripts of the
`tmy-testing-repo` GitHub-organization automation repository.

The definitions below are shallow embeddings of the Python sources:
  - `.github/scripts/team_manage_membership.py`  (membership reconciler)
  - `.github/scripts/team_manage_resource.py`    (repository-permission reconciler)
  - `.github/scripts/team_manage_subteams.py`    (sub-team existence reconciler)
  - `.github/scripts/validate_pr_requirements.py`(PR requirement validator)
  - `.github/scripts/pr_review_manager.py`       (PR review manager)
  - `.github/scripts/repo_health_check.py`       (repository health scorer)

Remote GitHub state (team rosters, team repositories, sub-team lists) is
modelled by the data the scripts read from the API: member/repository/team
name lists (Python `set` iteration is order-unspecified, so sets are taken
as arbitrary enumerations and set-sized facts are stated via `Finset`).
Mutating API calls are collected in lists of call descriptors.  The health
scorer's float arithmetic is modelled over `ℚ`.
-/

namespace TmyRepo

/-! ## Membership reconciler (`team_manage_membership.py`) -/

/-- `'` as a character, used by `normalize_username` (Python `strip("'")`). -/
def quoteChar : Char := Char.ofNat 39

/-- Embedding of `normalize_username` (team_manage_membership.py, lines 17-21):
`username.lstrip("@").strip("'")` — drop all leading `@`, then all leading and
trailing single quotes. -/
def normalize_username (username : String) : String :=
  let l1 := username.toList.dropWhile (fun c => c == '@')
  let l2 := l1.dropWhile (fun c => c == quoteChar)
  let l3 := (l2.reverse.dropWhile (fun c => c == quoteChar)).reverse
  String.mk l3

/-- A mutating membership API call: `team.add_membership` / `team.remove_membership`. -/
inductive MemCall where
  | add (user : String)
  | remove (user : String)
deriving DecidableEq, Repr

/-- Whether a membership call is an add-membership call. -/
def MemCall.isAdd : MemCall → Bool
  | .add _ => true
  | .remove _ => false

/-- Whether a membership call is a remove-membership call. -/
def MemCall.isRemove : MemCall → Bool
  | .add _ => false
  | .remove _ => true

/-- Embedding of `remove_all_members` (team_manage_membership.py, lines 68-76):
one `remove_membership` call is issued for every current member. -/
def remove_all_members (current_members : List String) : List MemCall :=
  current_members.map MemCall.remove

/-- The normalized desired-member set of a config list
(`{normalize_username(member) for member in members_list}`), as a
duplicate-free list. -/
def desired_members_of (members_list : List String) : List String :=
  (members_list.map normalize_username).dedup

/-- Embedding of `sync_team_members` (team_manage_membership.py, lines 79-105),
as the list of mutating API calls it issues.  `members_list = none` models the
Python `None`; `current_members` is an enumeration of the team roster returned
by `get_team_members`.  One `add_membership` call is attempted per member of
`desired - current` and one `remove_membership` call per member of
`current - desired` (call attempts are recorded whether or not the remote
call succeeds; the per-item `try/except` is modelled in `add_loop` below). -/
def sync_team_members (members_list : Option (List String))
    (current_members : List String) : List MemCall :=
  match members_list with
  | none => remove_all_members current_members
  | some l =>
    if l.isEmpty then remove_all_members current_members
    else
      let desired := desired_members_of l
      let toAdd := desired.filter (fun m => m ∉ current_members)
      let toRemove := current_members.filter (fun m => m ∉ desired)
      toAdd.map MemCall.add ++ toRemove.map MemCall.remove

/-- The team roster produced by a run of `sync_team_members` in which every
remote call succeeds: additions applied, then removals applied. -/
def member_state_after (members_list : Option (List String))
    (current_members : List String) : List String :=
  match members_list with
  | none => []
  | some l =>
    if l.isEmpty then []
    else
      let desired := desired_members_of l
      let toAdd := desired.filter (fun m => m ∉ current_members)
      let toRemove := current_members.filter (fun m => m ∉ desired)
      (current_members ++ toAdd).filter (fun m => m ∉ toRemove)

/-- The trace of one add/remove loop of `sync_team_members`
(team_manage_membership.py, lines 90-96 and 99-105): each iteration attempts
a remote call for its member inside `try/except GithubException`; a failure
(modelled by the oracle `fails`, e.g. a 404 user-not-found) is caught and
logged and the loop continues with the remaining members. -/
structure LoopTrace where
  attempted : List String
  succeeded : List String
  failed : List String
deriving DecidableEq, Repr

/-- Embedding of the per-member add loop of `sync_team_members`
(team_manage_membership.py, lines 89-96); the remove loop (lines 98-105) and
the loop of `remove_all_members` (lines 71-76) have the identical
`for … try … except GithubException: log; continue` shape. -/
def add_loop (to_process : List String) (fails : String → Bool) : LoopTrace :=
  match to_process with
  | [] => ⟨[], [], []⟩
  | m :: rest =>
    let r := add_loop rest fails
    if fails m then ⟨m :: r.attempted, r.succeeded, m :: r.failed⟩
    else ⟨m :: r.attempted, m :: r.succeeded, r.failed⟩

/-! ## Repository-permission reconciler (`team_manage_resource.py`) -/

/-- Embedding of the `permission_mapping` table of `sync_team_repos`
(team_manage_resource.py, line 96). -/
def permission_mapping : List (String × String) :=
  [("read", "pull"), ("write", "push"), ("admin", "admin"),
   ("maintain", "maintain"), ("triage", "triage")]

/-- Python `s.lower()` over its characters (the scripts' permission strings
are ASCII, where Python and Unicode lowercasing agree). -/
def py_lower (s : String) : String := String.mk (s.toList.map Char.toLower)

/-- Embedding of the permission-mapping step of `sync_team_repos`
(team_manage_resource.py, lines 98-103): if the lowercased desired permission
is a key of the table, use the mapped value; otherwise use the lowercased
input itself ("custom permission") and print a warning. -/
def api_permission_of (desired_permissions : String) : String :=
  match permission_mapping.lookup (py_lower desired_permissions) with
  | some v => v
  | none => py_lower desired_permissions

/-- A mutating team-repository API call: `update_team_repository` used to add
a repository, `update_team_repository` used to change a permission level, and
the REST `DELETE` issued by `remove_team_repository` (or its PyGithub
fallback). -/
inductive RepoCall where
  | add (repo : String)
  | updatePerm (repo : String)
  | remove (repo : String)
deriving DecidableEq, Repr

/-- Embedding of `sync_team_repos` (team_manage_resource.py, lines 86-206) as
the list of mutating API calls issued on the success path (every remote call
succeeds, so `get_repo_permission` on a repository added earlier in the same
run returns the freshly set permission).  `current_repos` enumerates
`team.get_repos()` (fetched once, before the loops) and `current_perm` is the
permission the team currently holds on each of those repositories.  The
parent-team warning (lines 117-123 / 176-182) only logs and is not a call. -/
def sync_team_repos (desired_repos : Option (List String))
    (desired_permissions : String) (current_repos : List String)
    (current_perm : String → String) : List RepoCall :=
  let api_permission := api_permission_of desired_permissions
  match desired_repos with
  | none => current_repos.map RepoCall.remove
  | some l =>
    if l.isEmpty then current_repos.map RepoCall.remove
    else
      let addUpdate := l.map (fun repo_name =>
        if repo_name ∉ current_repos then
          -- absent: one add call; afterwards the live permission equals
          -- `api_permission`, so the subsequent check issues no update
          [RepoCall.add repo_name]
        else if current_perm repo_name ≠ api_permission then
          [RepoCall.updatePerm repo_name]
        else [])
      addUpdate.flatten ++
        (current_repos.filter (fun r => r ∉ l)).map RepoCall.remove

/-- The team-repository state (repository list and per-repository permission)
produced by a run of `sync_team_repos` in which every remote call succeeds. -/
def repo_state_after (desired_repos : Option (List String))
    (desired_permissions : String) (current_repos : List String)
    (current_perm : String → String) : List String × (String → String) :=
  let api_permission := api_permission_of desired_permissions
  match desired_repos with
  | none => ([], current_perm)
  | some l =>
    if l.isEmpty then ([], current_perm)
    else
      let toAdd := l.filter (fun r => r ∉ current_repos)
      let toRemove := current_repos.filter (fun r => r ∉ l)
      ((current_repos ++ toAdd).filter (fun r => r ∉ toRemove),
       fun r => if r ∈ l then api_permission else current_perm r)

/-! ## Sub-team existence reconciler (`team_manage_subteams.py`) -/

/-- A mutating sub-team API call: `org.create_team` / `team.delete`. -/
inductive SubTeamCall where
  | create (name : String)
  | delete (name : String)
deriving DecidableEq, Repr

/-- Embedding of `sync_subteams` (team_manage_subteams.py, lines 84-107) as
the list of mutating API calls it issues: one `create_team` per configured
sub-team absent from the parent team's current sub-teams, one `delete` per
current sub-team absent from the configuration.  `desired_names` lists the
`name` fields of `default_sub_teams` in order; `existing` enumerates
`get_existing_subteams`. -/
def sync_subteams (desired_names : List String) (existing : List String) :
    List SubTeamCall :=
  (desired_names.filter (fun n => n ∉ existing)).map SubTeamCall.create ++
    (existing.filter (fun n => n ∉ desired_names)).map SubTeamCall.delete

/-- The sub-team set produced by a run of `sync_subteams` in which every
remote call succeeds. -/
def subteam_state_after (desired_names : List String) (existing : List String) :
    List String :=
  let toCreate := desired_names.filter (fun n => n ∉ existing)
  let toDelete := existing.filter (fun n => n ∉ desired_names)
  (existing ++ toCreate).filter (fun n => n ∉ toDelete)

/-! ## Branch-configuration resolution
(`validate_pr_requirements.py` and `pr_review_manager.py`) -/

/-- A branch policy entry of `REVIEWERS.yml` (`config["pull_requests"]["branches"]`
values), restricted to the fields the validators read.  A missing `exclude`
key is modelled by the empty list. -/
structure BranchCfg where
  exclude : List String
  required_approvals : Nat
  required_teams : List String
deriving DecidableEq, Repr

/-- Python `s.startswith(p)` over the characters of the strings. -/
def str_starts_with (s p : String) : Bool := p.toList.isPrefixOf s.toList

/-- Python `s.endswith(p)` over the characters of the strings. -/
def str_ends_with (s p : String) : Bool := p.toList.isSuffixOf s.toList

/-- `pattern.replace("*", "")` (validate_pr_requirements.py, line 91):
every `*` is deleted. -/
def strip_star (pattern : String) : String :=
  String.mk (pattern.toList.filter (fun c => c ≠ '*'))

/-- Embedding of the branch-configuration loop of `validate_pr_requirements`
(validate_pr_requirements.py, lines 86-100): scan the configured
pattern→config pairs in order; select the first pattern that equals the
target branch, or that ends in `*` and whose `*`-stripped form is a prefix of
the target branch, unless the config's `exclude` list (present and truthy)
contains the target branch, in which case scanning continues. -/
def find_branch_config : List (String × BranchCfg) → String → Option BranchCfg
  | [], _ => none
  | (pattern, cfg) :: rest, target_branch =>
    if (pattern == target_branch ||
        (str_ends_with pattern "*"
          && str_starts_with target_branch (strip_star pattern)))
        && !((!cfg.exclude.isEmpty) && cfg.exclude.contains target_branch) then
      some cfg
    else find_branch_config rest target_branch

/-- A token of the regex built by `pattern.replace("*", ".*")` in
`PRReviewManager._get_branch_config` (pr_review_manager.py, line 71): each
`*` of the configured pattern becomes `.*`, each `.` is the regex
any-character, every other character is a literal (the model covers patterns
without further regex metacharacters, which branch names do not use). -/
inductive RTok where
  | lit (c : Char)
  | anyChar
  | anyStar
deriving DecidableEq, Repr

/-- Tokenize a configured branch pattern into the regex
`pattern.replace("*", ".*")`. -/
def compile_pattern (pattern : String) : List RTok :=
  pattern.toList.map (fun c =>
    if c = '*' then RTok.anyStar else if c = '.' then RTok.anyChar else RTok.lit c)

/-- `re.match(regex_pattern, branch_name)` (pr_review_manager.py, line 72):
match anchored at the start of the string, trailing characters allowed; a
wildcard token consumes an arbitrary prefix of the remaining characters. -/
def re_match : List RTok → List Char → Bool
  | [], _ => true
  | RTok.anyStar :: ts, cs =>
    (List.range (cs.length + 1)).any (fun k => re_match ts (cs.drop k))
  | RTok.lit c :: ts, x :: xs => (c == x) && re_match ts xs
  | RTok.anyChar :: ts, _ :: xs => re_match ts xs
  | RTok.lit _ :: _, [] => false
  | RTok.anyChar :: _, [] => false

/-- Embedding of the pattern-scanning loop of
`PRReviewManager._get_branch_config` (pr_review_manager.py, lines 69-80):
first pattern containing `*` whose regex matches the branch wins, except that
a pattern whose `exclude` list contains the branch is skipped. -/
def scan_pattern_configs : List (String × BranchCfg) → String → Option BranchCfg
  | [], _ => none
  | (pattern, config) :: rest, branch_name =>
    if pattern.toList.contains '*'
        && re_match (compile_pattern pattern) branch_name.toList then
      if config.exclude.contains branch_name then
        scan_pattern_configs rest branch_name
      else some config
    else scan_pattern_configs rest branch_name

/-- Embedding of `PRReviewManager._get_branch_config`
(pr_review_manager.py, lines 58-90): exact dictionary match first, then the
pattern scan.  The dictionary of `branch_configs` is modelled as an
association list with the keys unique, so `List.lookup` is the dict lookup. -/
def get_branch_config (branch_configs : List (String × BranchCfg))
    (branch_name : String) : Option BranchCfg :=
  match branch_configs.lookup branch_name with
  | some config => some config
  | none => scan_pattern_configs branch_configs branch_name

/-! ## PR requirement decisions
(`validate_pr_requirements.py` lines 102-173, `pr_review_manager.py`
lines 112-150) -/

/-- The `all_team_members` set built by `validate_pr_requirements`
(validate_pr_requirements.py, lines 116-127): the union of the member lists
of the required teams, as a duplicate-free list.  `team_info` models the
dict built by `get_team_info`: `none` for a required team that does not
exist, `some members` for one that does. -/
def union_team_members (required_teams : List String)
    (team_info : String → Option (List String)) : List String :=
  (required_teams.map (fun t => (team_info t).getD [])).flatten.dedup

/-- Embedding of the decision part of `validate_pr_requirements`
(validate_pr_requirements.py, lines 102-173), once a branch config has been
found.  `latest_reviews` maps a reviewer to the state of their latest
review.  The function returns `false` when some required team is missing,
`false` when some required team exists but has no members, and otherwise
compares the number of distinct members of the union of the required teams
whose latest review is `APPROVED` against `required_approvals`. -/
def validate_decision (branch_config : BranchCfg)
    (team_info : String → Option (List String))
    (latest_reviews : String → Option String) : Bool :=
  let required_teams := branch_config.required_teams
  let missing_teams := required_teams.filter (fun t => (team_info t).isNone)
  if !missing_teams.isEmpty then false
  else
    let empty_teams := required_teams.filter
      (fun t => ((team_info t).getD []).isEmpty)
    let all_team_members := union_team_members required_teams team_info
    if !empty_teams.isEmpty then false
    else
      let valid_approvals := (all_team_members.filter
        (fun m => latest_reviews m == some "APPROVED")).length
      decide (branch_config.required_approvals ≤ valid_approvals)

/-- The distinct logins holding an `APPROVED` review, i.e. the keys of the
`approved_reviews` dict of `PRReviewManager._check_required_reviews`
(pr_review_manager.py, lines 120-132).  `reviews` is the list of
(reviewer login, review state) pairs of `pr.get_reviews()`. -/
def approved_reviewers (reviews : List (String × String)) : List String :=
  ((reviews.filter (fun r => r.2 == "APPROVED")).map Prod.fst).dedup

/-- Embedding of `PRReviewManager._check_required_reviews`
(pr_review_manager.py, lines 112-150): `false` when fewer distinct approvers
than `required_approvals`; otherwise, when `required_teams` is non-empty,
every required team must appear among the teams of some approver
(`user_teams` models `reviewer.get_teams()`). -/
def check_required_reviews (branch_config : BranchCfg)
    (reviews : List (String × String)) (user_teams : String → List String) :
    Bool :=
  let approved := approved_reviewers reviews
  if approved.length < branch_config.required_approvals then false
  else if !branch_config.required_teams.isEmpty then
    let approved_teams := (approved.map user_teams).flatten
    branch_config.required_teams.all (fun t => approved_teams.contains t)
  else true

/-! ## Repository health scorer (`repo_health_check.py`) -/

/-- Embedding of the required-files score of `check_single_repo`
(repo_health_check.py, line 200):
`(weighted_sum / total_weight * 100) if total_weight > 0 else 0`. -/
def required_files_score (total_weight weighted_sum : ℚ) : ℚ :=
  if 0 < total_weight then weighted_sum / total_weight * 100 else 0

/-- Embedding of the weighted Dependabot alert sum of `check_single_repo`
(repo_health_check.py, lines 227-230): Python `sum(...)` over the
`alert_severity_weights` table, i.e. a left fold from 0 of
`counts[severity] * weight`. -/
def weighted_alert_sum (alert_severity_weights : List (String × ℚ))
    (alert_counts : String → ℚ) : ℚ :=
  alert_severity_weights.foldl (fun acc sw => acc + alert_counts sw.1 * sw.2) 0

/-- Embedding of the Dependabot alert score of `check_single_repo`
(repo_health_check.py, line 231): `max(0, 100 - (weighted_sum * 10))`. -/
def alert_score (alert_severity_weights : List (String × ℚ))
    (alert_counts : String → ℚ) : ℚ :=
  max 0 (100 - weighted_alert_sum alert_severity_weights alert_counts * 10)

/-- The Dependabot penalty as the words of the spec and of claim C8 state it
("100 minus the weighted sum of alert counts by severity, floored at 0") —
a second definition kept solely for comparison with `alert_score`. -/
def claimed_alert_score (alert_severity_weights : List (String × ℚ))
    (alert_counts : String → ℚ) : ℚ :=
  max 0 (100 - weighted_alert_sum alert_severity_weights alert_counts)

/-- The `scoring.component_weights` table of `repo_health_config.yaml`
(repo_health_check.py, line 234). -/
structure ComponentWeights where
  required_files : ℚ
  security_scanning : ℚ
  dependabot : ℚ
deriving DecidableEq, Repr

/-- The security-scanning component score (repo_health_check.py, line 237):
`100 if metrics['security_scanning'] else 0`. -/
def security_component (security_scanning : Bool) : ℚ :=
  if security_scanning then 100 else 0

/-- The Dependabot component score (repo_health_check.py, line 238):
`metrics['alert_score'] if metrics['dependabot_enabled'] else 0`. -/
def dependabot_component (dependabot_enabled : Bool) (alert_s : ℚ) : ℚ :=
  if dependabot_enabled then alert_s else 0

/-- Embedding of the overall health score of `check_single_repo`
(repo_health_check.py, lines 241-244): the weighted sum of the three
component scores. -/
def overall_score (w : ComponentWeights)
    (required_files_s security_s dependabot_s : ℚ) : ℚ :=
  required_files_s * w.required_files + security_s * w.security_scanning +
    dependabot_s * w.dependabot

/-- Embedding of the traffic-light bucketing of `check_single_repo`
(repo_health_check.py, lines 247-252): GREEN iff the overall score reaches
the green threshold, else AMBER iff it reaches the amber threshold, else
RED. -/
def traffic_light (green amber score : ℚ) : String :=
  if score ≥ green then "GREEN"
  else if score ≥ amber then "AMBER"
  else "RED"

/-! ## Concrete configurations used by counterexamples and witnesses -/

/-- Branch policy "A" of the C4 example. -/
def cfgA : BranchCfg := ⟨[], 1, []⟩

/-- Branch policy "B" of the C4 example, excluding `release/freeze`. -/
def cfgB : BranchCfg := ⟨["release/freeze"], 2, []⟩

/-- The branch mapping `{"main": A, "release/*": B (exclude=["release/freeze"])}`. -/
def demo_branch_configs : List (String × BranchCfg) :=
  [("main", cfgA), ("release/*", cfgB)]

/-- A policy distinct from `cfgA`, with no exclusions. -/
def shadow_cfgB : BranchCfg := ⟨[], 2, []⟩

/-- A branch mapping in which a glob pattern precedes an exact key for
`release/1.0`. -/
def shadow_branch_configs : List (String × BranchCfg) :=
  [("release/*", shadow_cfgB), ("release/1.0", cfgA)]

/-- Team data for the C5 counterexample: team `t1` has the single member
`alice`, team `t2` has the single member `bob`, no other team exists. -/
def ex_team_info : String → Option (List String) := fun t =>
  if t = "t1" then some ["alice"]
  else if t = "t2" then some ["bob"]
  else none

/-- Review data for the C5 counterexample: only `alice` approved. -/
def ex_latest_reviews : String → Option String := fun u =>
  if u = "alice" then some "APPROVED" else none

/-- Branch policy for the C5 counterexample: one approval required, required
teams `t1` and `t2`. -/
def ex_branch_cfg : BranchCfg := ⟨[], 1, ["t1", "t2"]⟩

/-! ## Auxiliary lemmas -/

/-- Membership of the post-run roster: after a successful run with a non-empty
member list, the roster holds exactly the normalized desired members. -/
theorem mem_member_state_after (l : List String) (current : List String)
    (hne : ¬ l.isEmpty) (m : String) :
    m ∈ member_state_after (some l) current ↔ m ∈ desired_members_of l := by
  simp only [member_state_after, if_neg hne, List.mem_filter, List.mem_append,
    decide_not, Bool.not_eq_true', decide_eq_false_iff_not, not_not, not_and,
    decide_eq_true_eq]
  tauto

/-- Membership of the post-run repository list: after a successful run with a
non-empty desired list, the team holds exactly the desired repositories. -/
theorem mem_repo_state_after (l : List String) (dperm : String)
    (current : List String) (perm : String → String) (hne : ¬ l.isEmpty)
    (r : String) :
    r ∈ (repo_state_after (some l) dperm current perm).1 ↔ r ∈ l := by
  simp only [repo_state_after, if_neg hne, List.mem_filter, List.mem_append,
    decide_not, Bool.not_eq_true', decide_eq_false_iff_not, not_not, not_and,
    decide_eq_true_eq]
  tauto

/-- Membership of the post-run sub-team set: after a successful run, the
parent team's sub-teams are exactly the configured names. -/
theorem mem_subteam_state_after (desired existing : List String) (n : String) :
    n ∈ subteam_state_after desired existing ↔ n ∈ desired := by
  simp only [subteam_state_after, List.mem_filter, List.mem_append,
    decide_not, Bool.not_eq_true', decide_eq_false_iff_not, not_not, not_and,
    decide_eq_true_eq]
  tauto

/-- A second membership run against the roster produced by a successful first
run issues no calls. -/
theorem sync_members_after_run (members_list : Option (List String))
    (current : List String) :
    sync_team_members members_list (member_state_after members_list current)
      = [] := by
  match members_list with
  | none => rfl
  | some l =>
    by_cases hne : l.isEmpty
    · simp [sync_team_members, member_state_after, hne, remove_all_members]
    · have hmem := mem_member_state_after l current hne
      simp only [sync_team_members, if_neg hne, List.append_eq_nil,
        List.map_eq_nil_iff, List.filter_eq_nil_iff, decide_not,
        Bool.not_eq_true', decide_eq_false_iff_not, not_not]
      exact ⟨fun m hm => (hmem m).mpr hm, fun m hm => (hmem m).mp hm⟩

/-- A second repository-permission run against the state produced by a
successful first run issues no calls. -/
theorem sync_repos_after_run (desired_repos : Option (List String))
    (dperm : String) (current : List String) (perm : String → String) :
    sync_team_repos desired_repos dperm
      (repo_state_after desired_repos dperm current perm).1
      (repo_state_after desired_repos dperm current perm).2 = [] := by
  match desired_repos with
  | none => rfl
  | some l =>
    by_cases hne : l.isEmpty
    · simp [sync_team_repos, repo_state_after, hne]
    · have hmem := mem_repo_state_after l dperm current perm hne
      simp only [sync_team_repos, if_neg hne, List.append_eq_nil,
        List.flatten_eq_nil_iff, List.mem_map, List.map_eq_nil_iff,
        List.filter_eq_nil_iff, decide_not, Bool.not_eq_true',
        decide_eq_false_iff_not, not_not]
      constructor
      · rintro x ⟨r, hr, rfl⟩
        rw [if_neg (by simpa using not_not.mpr ((hmem r).mpr hr))]
        have hperm : (repo_state_after (some l) dperm current perm).2 r
            = api_permission_of dperm := by
          simp only [repo_state_after, if_neg hne, if_pos hr]
        rw [if_neg (by simp [hperm])]
      · exact fun r hr => (hmem r).mp hr

/-- A second sub-team run against the sub-team set produced by a successful
first run issues no calls. -/
theorem sync_subteams_after_run (desired existing : List String) :
    sync_subteams desired (subteam_state_after desired existing) = [] := by
  have hmem := mem_subteam_state_after desired existing
  simp only [sync_subteams, List.append_eq_nil, List.map_eq_nil_iff,
    List.filter_eq_nil_iff, decide_not, Bool.not_eq_true',
    decide_eq_false_iff_not, not_not]
  exact ⟨fun n hn => (hmem n).mpr hn, fun n hn => (hmem n).mp hn⟩

/-- Counting a filtered enumeration of a set difference: for a duplicate-free
`xs`, the members of `xs` outside `ys` number `|xs \ ys|`. -/
theorem length_filter_not_mem (xs ys : List String) (hx : xs.Nodup) :
    (xs.filter (fun a => a ∉ ys)).length
      = (xs.toFinset \ ys.toFinset).card := by
  rw [← List.toFinset_card_of_nodup (hx.filter _)]
  congr 1
  ext a
  simp [List.mem_filter]

/-- The normalized desired set as a `Finset`. -/
theorem toFinset_desired_members_of (l : List String) :
    (desired_members_of l).toFinset = (l.map normalize_username).toFinset := by
  ext a
  simp [desired_members_of]

/-! ## Claims -/

/-- C1: every reconciler (membership sync, repository-permission sync,
sub-team sync) is idempotent — when the second run's observed actual state is
the state produced by a successful first run and the desired configuration is
unchanged, the second run issues zero mutating API calls. -/
theorem reconcilers_idempotent :
    (∀ (members_list : Option (List String)) (current : List String),
      sync_team_members members_list (member_state_after members_list current)
        = []) ∧
    (∀ (desired_repos : Option (List String)) (dperm : String)
      (current : List String) (perm : String → String),
      sync_team_repos desired_repos dperm
        (repo_state_after desired_repos dperm current perm).1
        (repo_state_after desired_repos dperm current perm).2 = []) ∧
    (∀ (desired existing : List String),
      sync_subteams desired (subteam_state_after desired existing) = []) :=
  ⟨sync_members_after_run, sync_repos_after_run, sync_subteams_after_run⟩

/-- C2: for every non-empty desired member list and every actual member set
(an arbitrary duplicate-free enumeration), membership reconciliation issues
exactly `|desired − actual|` add-membership calls and `|actual − desired|`
remove-membership calls (desired taken after username normalization, attempts
counted whether or not the remote call succeeds), and zero mutating calls
when desired equals actual. -/
theorem sync_member_call_counts (l current : List String) (hl : l ≠ [])
    (hcur : current.Nodup) :
    (sync_team_members (some l) current).countP MemCall.isAdd
      = ((l.map normalize_username).toFinset \ current.toFinset).card ∧
    (sync_team_members (some l) current).countP MemCall.isRemove
      = (current.toFinset \ (l.map normalize_username).toFinset).card ∧
    ((l.map normalize_username).toFinset = current.toFinset →
      sync_team_members (some l) current = []) := by
  have hne : ¬ l.isEmpty := by simpa [List.isEmpty_iff] using hl
  refine ⟨?_, ?_, ?_⟩
  · simp only [sync_team_members, if_neg hne, List.countP_append,
      List.countP_map]
    have h1 : (List.countP (MemCall.isAdd ∘ MemCall.add)
        ((desired_members_of l).filter (fun m => m ∉ current)))
        = ((desired_members_of l).filter (fun m => m ∉ current)).length := by
      apply List.countP_eq_length.mpr
      intro a _
      rfl
    have h2 : (List.countP (MemCall.isAdd ∘ MemCall.remove)
        (current.filter (fun m => m ∉ desired_members_of l))) = 0 := by
      apply List.countP_eq_zero.mpr
      intro a _
      simp [Function.comp, MemCall.isAdd]
    have hnodup : (desired_members_of l).Nodup := List.nodup_dedup _
    rw [h1, h2, Nat.add_zero,
      length_filter_not_mem (desired_members_of l) current hnodup,
      toFinset_desired_members_of]
  · simp only [sync_team_members, if_neg hne, List.countP_append,
      List.countP_map]
    have h1 : (List.countP (MemCall.isRemove ∘ MemCall.add)
        ((desired_members_of l).filter (fun m => m ∉ current))) = 0 := by
      apply List.countP_eq_zero.mpr
      intro a _
      simp [Function.comp, MemCall.isRemove]
    have h2 : (List.countP (MemCall.isRemove ∘ MemCall.remove)
        (current.filter (fun m => m ∉ desired_members_of l)))
        = (current.filter (fun m => m ∉ desired_members_of l)).length := by
      apply List.countP_eq_length.mpr
      intro a _
      rfl
    rw [h1, h2, Nat.zero_add,
      length_filter_not_mem current (desired_members_of l) hcur,
      toFinset_desired_members_of]
  · intro hset
    have hiff : ∀ m : String, m ∈ desired_members_of l ↔ m ∈ current := by
      intro m
      have h := Finset.ext_iff.mp hset m
      simpa [desired_members_of] using h
    simp only [sync_team_members, if_neg hne, List.append_eq_nil,
      List.map_eq_nil_iff, List.filter_eq_nil_iff, decide_not,
      Bool.not_eq_true', decide_eq_false_iff_not, not_not]
    exact ⟨fun m hm => (hiff m).mp hm, fun m hm => (hiff m).mpr hm⟩

/-- Witness for C2 at `desired = ["@alice", "bob"]`, `actual = {"bob",
"carol"}`: one add call (`alice`) and one remove call (`carol`). -/
theorem sync_member_call_counts_witness :
    (sync_team_members (some ["@alice", "bob"]) ["bob", "carol"]).countP
        MemCall.isAdd
      = (((["@alice", "bob"] : List String).map normalize_username).toFinset
          \ (["bob", "carol"] : List String).toFinset).card ∧
    (sync_team_members (some ["@alice", "bob"]) ["bob", "carol"]).countP
        MemCall.isRemove
      = ((["bob", "carol"] : List String).toFinset
          \ ((["@alice", "bob"] : List String).map normalize_username).toFinset).card ∧
    (((["@alice", "bob"] : List String).map normalize_username).toFinset
        = (["bob", "carol"] : List String).toFinset →
      sync_team_members (some ["@alice", "bob"]) ["bob", "carol"] = []) :=
  sync_member_call_counts ["@alice", "bob"] ["bob", "carol"]
    (by decide) (by decide)

/-- C3: a desired members list that is empty or absent (`None`) makes the
membership reconciler issue one remove-membership call for every current
member — the empty/absent list means "remove everyone" and is never a no-op
when the team has members. -/
theorem empty_members_list_removes_all (members_list : Option (List String))
    (current : List String) (h : members_list = none ∨ members_list = some []) :
    sync_team_members members_list current = current.map MemCall.remove ∧
    (∀ m ∈ current, MemCall.remove m ∈ sync_team_members members_list current) ∧
    (sync_team_members members_list current).length = current.length ∧
    (current ≠ [] → sync_team_members members_list current ≠ []) := by
  have hcalls : sync_team_members members_list current
      = current.map MemCall.remove := by
    rcases h with h | h <;> subst h <;> rfl
  refine ⟨hcalls, ?_, ?_, ?_⟩
  · intro m hm
    rw [hcalls]
    exact List.mem_map_of_mem MemCall.remove hm
  · rw [hcalls, List.length_map]
  · intro hne
    rw [hcalls]
    simpa using hne

/-- Witness for C3 at `members_list = some []`, `current = {"alice", "bob"}`:
both members receive remove calls. -/
theorem empty_members_list_removes_all_witness :
    sync_team_members (some []) ["alice", "bob"]
        = (["alice", "bob"] : List String).map MemCall.remove ∧
    (∀ m ∈ (["alice", "bob"] : List String),
      MemCall.remove m ∈ sync_team_members (some []) ["alice", "bob"]) ∧
    (sync_team_members (some []) ["alice", "bob"]).length
        = (["alice", "bob"] : List String).length ∧
    ((["alice", "bob"] : List String) ≠ [] →
      sync_team_members (some []) ["alice", "bob"] ≠ []) :=
  empty_members_list_removes_all (some []) ["alice", "bob"] (Or.inr rfl)

/-- C4 counterexample: in `validate_pr_requirements` the pattern loop runs in
configuration order and an exact key can be shadowed by an earlier glob — for
the mapping `{"release/*": B, "release/1.0": A}` and target `release/1.0`,
the exactly-matching pattern maps to `A` but resolution selects `B`. -/
theorem branch_config_exact_match_shadowed :
    shadow_branch_configs.lookup "release/1.0" = some cfgA ∧
    find_branch_config shadow_branch_configs "release/1.0" = some shadow_cfgB ∧
    shadow_cfgB ≠ cfgA := by
  refine ⟨by decide, by decide, by decide⟩

/-- C4 (amended): `PRReviewManager._get_branch_config` selects the
exactly-matching pattern whenever one is configured, while
`validate_pr_requirements` takes the first configured pattern (exact, or
trailing-`*` glob by prefix, skipping a pattern whose exclude list contains
the branch) in mapping order; on the mapping
`{"main": A, "release/*": B (exclude=["release/freeze"])}` both resolvers
send "main" to A, "release/1.0" to B and "release/freeze" to no
configuration. -/
theorem branch_config_resolution :
    (∀ (bcs : List (String × BranchCfg)) (branch : String) (cfg : BranchCfg),
      bcs.lookup branch = some cfg → get_branch_config bcs branch = some cfg) ∧
    find_branch_config demo_branch_configs "main" = some cfgA ∧
    find_branch_config demo_branch_configs "release/1.0" = some cfgB ∧
    find_branch_config demo_branch_configs "release/freeze" = none ∧
    get_branch_config demo_branch_configs "main" = some cfgA ∧
    get_branch_config demo_branch_configs "release/1.0" = some cfgB ∧
    get_branch_config demo_branch_configs "release/freeze" = none := by
  refine ⟨?_, by decide, by decide, by decide, by decide, by decide, by decide⟩
  intro bcs branch cfg hexact
  unfold get_branch_config
  rw [hexact]

/-- Witness for the exact-match clause of the amended C4, at the demo
mapping and branch `main`. -/
theorem branch_config_resolution_witness :
    demo_branch_configs.lookup "main" = some cfgA ∧
    get_branch_config demo_branch_configs "main" = some cfgA :=
  ⟨by decide, branch_config_resolution.1 demo_branch_configs "main" cfgA
    (by decide)⟩

/-- C5 counterexample: `validate_pr_requirements` passes a PR although a
required team has no approving member — with required teams `t1 = {alice}`
and `t2 = {bob}`, one required approval, and only `alice` approving, the
validator returns pass even though no member of `t2` approved. -/
theorem per_team_approval_not_enforced :
    validate_decision ex_branch_cfg ex_team_info ex_latest_reviews = true ∧
    "t2" ∈ ex_branch_cfg.required_teams ∧
    ex_team_info "t2" = some ["bob"] ∧
    ((["bob"] : List String).all
      (fun m => !(ex_latest_reviews m == some "APPROVED"))) = true := by
  refine ⟨by decide, by decide, by decide, by decide⟩

/-- C5 (amended): `PRReviewManager._check_required_reviews` passes iff the
number of distinct approvers reaches the required approval count and every
required team appears among the teams of some approver; the per-team
condition is enforced only there — `validate_pr_requirements`, once every
required team exists and is non-empty, passes iff the number of distinct
members of the union of the required teams whose latest review is APPROVED
reaches the required approval count, with no per-team requirement. -/
theorem review_requirement_evaluation :
    (∀ (cfg : BranchCfg) (reviews : List (String × String))
      (user_teams : String → List String),
      check_required_reviews cfg reviews user_teams = true ↔
        (cfg.required_approvals ≤ (approved_reviewers reviews).length ∧
          ∀ t ∈ cfg.required_teams,
            ∃ u ∈ approved_reviewers reviews, t ∈ user_teams u)) ∧
    (∀ (cfg : BranchCfg) (team_info : String → Option (List String))
      (latest_reviews : String → Option String),
      (∀ t ∈ cfg.required_teams, ∃ ms, team_info t = some ms ∧ ms ≠ []) →
      (validate_decision cfg team_info latest_reviews = true ↔
        cfg.required_approvals ≤
          ((union_team_members cfg.required_teams team_info).filter
              (fun m => latest_reviews m == some "APPROVED")).length)) := by
  constructor
  · intro cfg reviews user_teams
    unfold check_required_reviews
    by_cases hlt : (approved_reviewers reviews).length < cfg.required_approvals
    · simp only [if_pos hlt, Bool.false_eq_true, false_iff, not_and]
      intro hle
      omega
    · have hle : cfg.required_approvals ≤ (approved_reviewers reviews).length :=
        Nat.le_of_not_lt hlt
      simp only [if_neg hlt]
      by_cases hteams : cfg.required_teams.isEmpty
      · have h0 : cfg.required_teams = [] := by
          simpa [List.isEmpty_iff] using hteams
        simp [h0, hle]
      · simp only [hteams, Bool.not_true, Bool.not_false, if_true,
          List.all_eq_true]
        constructor
        · intro hall
          refine ⟨hle, fun t ht => ?_⟩
          have h := hall t ht
          simpa [List.contains, List.elem_iff, List.mem_flatten,
            List.mem_map] using h
        · rintro ⟨-, hall⟩ t ht
          have h := hall t ht
          simpa [List.contains, List.elem_iff, List.mem_flatten,
            List.mem_map] using h
  · intro cfg team_info latest_reviews hteams
    have hmiss : cfg.required_teams.filter
        (fun t => (team_info t).isNone) = [] := by
      apply List.filter_eq_nil_iff.mpr
      intro t ht
      obtain ⟨ms, hms, -⟩ := hteams t ht
      simp [hms]
    have hempty : cfg.required_teams.filter
        (fun t => ((team_info t).getD []).isEmpty) = [] := by
      apply List.filter_eq_nil_iff.mpr
      intro t ht
      obtain ⟨ms, hms, hne⟩ := hteams t ht
      simp [hms, List.isEmpty_iff, hne]
    simp [validate_decision, hmiss, hempty]

/-- Witness for the amended C5: with required teams `t1`, `t2` as in the
counterexample data, the validator's decision coincides with the union
approval count, and `_check_required_reviews` with one required approval and
required team `t2` rejects the review set in which only `alice` (a member of
`t1` only) approved. -/
theorem review_requirement_evaluation_witness :
    (check_required_reviews ⟨[], 1, ["t2"]⟩ [("alice", "APPROVED")]
        (fun u => if u = "alice" then ["t1"] else []) = true ↔
      (1 ≤ (approved_reviewers [("alice", "APPROVED")]).length ∧
        ∀ t ∈ ["t2"],
          ∃ u ∈ approved_reviewers [("alice", "APPROVED")],
            t ∈ (if u = "alice" then ["t1"] else []))) ∧
    (validate_decision ex_branch_cfg ex_team_info ex_latest_reviews = true ↔
      ex_branch_cfg.required_approvals ≤
        ((union_team_members ex_branch_cfg.required_teams ex_team_info).filter
          (fun m => ex_latest_reviews m == some "APPROVED")).length) :=
  ⟨review_requirement_evaluation.1 ⟨[], 1, ["t2"]⟩ [("alice", "APPROVED")]
      (fun u => if u = "alice" then ["t1"] else []),
   review_requirement_evaluation.2 ex_branch_cfg ex_team_info ex_latest_reviews
      (by
        intro t ht
        simp only [ex_branch_cfg, List.mem_cons, List.not_mem_nil,
          or_false] at ht
        rcases ht with rfl | rfl
        · exact ⟨["alice"], by decide, by decide⟩
        · exact ⟨["bob"], by decide, by decide⟩)⟩

/-- C10: `validate_pr_requirements` returns fail whenever some required team
does not exist or exists with zero members, regardless of the reviews
received — an empty required team blocks validation rather than being
vacuously satisfied. -/
theorem missing_or_empty_team_blocks (cfg : BranchCfg)
    (team_info : String → Option (List String))
    (latest_reviews : String → Option String) (t : String)
    (ht : t ∈ cfg.required_teams)
    (h : team_info t = none ∨ team_info t = some []) :
    validate_decision cfg team_info latest_reviews = false := by
  by_cases hmiss :
      ((cfg.required_teams.filter (fun u => (team_info u).isNone)).isEmpty
        = true)
  · rcases h with h | h
    · exfalso
      rw [List.isEmpty_iff] at hmiss
      have hnone := List.filter_eq_nil_iff.mp hmiss t ht
      simp [h] at hnone
    · have hempty : ¬ ((cfg.required_teams.filter
          (fun u => ((team_info u).getD []).isEmpty)).isEmpty = true) := by
        rw [List.isEmpty_iff]
        intro hnil
        have hx := List.filter_eq_nil_iff.mp hnil t ht
        simp [h] at hx
      simp [validate_decision, hmiss, hempty]
  · simp [validate_decision, hmiss]

/-- Witness for C10: a single required team that does not exist blocks the
PR even with a zero required-approval count and reviews present. -/
theorem missing_or_empty_team_blocks_witness :
    validate_decision ⟨[], 0, ["ghost"]⟩ (fun _ => none)
      (fun _ => some "APPROVED") = false :=
  missing_or_empty_team_blocks ⟨[], 0, ["ghost"]⟩ (fun _ => none)
    (fun _ => some "APPROVED") "ghost" (by decide) (Or.inl rfl)

/-- C6 counterexample: an input outside the permission-mapping table is not
passed through verbatim — `"FooBar"` becomes `"foobar"`. -/
theorem unknown_permission_not_verbatim :
    api_permission_of "FooBar" = "foobar" ∧
    api_permission_of "FooBar" ≠ "FooBar" := by
  refine ⟨by decide, by decide⟩

/-- C6 (amended): permission normalization maps `read` to `pull` and `write`
to `push` case-insensitively, maps the lowercase inputs `admin`, `maintain`
and `triage` to themselves, and passes every value outside the mapping table
through lowercased (not verbatim), with a warning. -/
theorem permission_normalization :
    (∀ p : String, py_lower p = "read" → api_permission_of p = "pull") ∧
    (∀ p : String, py_lower p = "write" → api_permission_of p = "push") ∧
    api_permission_of "admin" = "admin" ∧
    api_permission_of "maintain" = "maintain" ∧
    api_permission_of "triage" = "triage" ∧
    (∀ p : String, (permission_mapping.lookup (py_lower p)).isNone →
      api_permission_of p = py_lower p) := by
  refine ⟨?_, ?_, by decide, by decide, by decide, ?_⟩
  · intro p hp
    unfold api_permission_of
    rw [hp]
    rfl
  · intro p hp
    unfold api_permission_of
    rw [hp]
    rfl
  · intro p hp
    unfold api_permission_of
    obtain hlk := Option.isNone_iff_eq_none.mp hp
    rw [hlk]

/-- Witness for C6's amended clauses at `"READ"`, `"Write"`, `"FooBar"`. -/
theorem permission_normalization_witness :
    api_permission_of "READ" = "pull" ∧
    api_permission_of "Write" = "push" ∧
    api_permission_of "FooBar" = py_lower "FooBar" :=
  ⟨permission_normalization.1 "READ" (by decide),
   permission_normalization.2.1 "Write" (by decide),
   permission_normalization.2.2.2.2.2 "FooBar" (by decide)⟩

/-- C7: the health-score example — a required-files weight total of 5.0 with
4.0 present scores 80.0; with security-scanning and Dependabot components 0
and component weights {0.4, 0.3, 0.3} the overall score is 32.0, classified
RED under thresholds {green: 80, amber: 60}; and with these weights any
component scores in [0, 100] give an overall score in [0, 100]. -/
theorem repo_health_example :
    required_files_score 5 4 = 80 ∧
    overall_score ⟨4/10, 3/10, 3/10⟩ (required_files_score 5 4)
      (security_component false) (dependabot_component false 0) = 32 ∧
    traffic_light 80 60 (overall_score ⟨4/10, 3/10, 3/10⟩
      (required_files_score 5 4) (security_component false)
      (dependabot_component false 0)) = "RED" ∧
    (∀ rf ss dep : ℚ, 0 ≤ rf → rf ≤ 100 → 0 ≤ ss → ss ≤ 100 → 0 ≤ dep →
      dep ≤ 100 →
      0 ≤ overall_score ⟨4/10, 3/10, 3/10⟩ rf ss dep ∧
        overall_score ⟨4/10, 3/10, 3/10⟩ rf ss dep ≤ 100) := by
  have h80 : required_files_score 5 4 = 80 := by
    norm_num [required_files_score]
  have h32 : overall_score ⟨4/10, 3/10, 3/10⟩ (required_files_score 5 4)
      (security_component false) (dependabot_component false 0) = 32 := by
    norm_num [h80, overall_score, security_component, dependabot_component]
  refine ⟨h80, h32, ?_, ?_⟩
  · rw [h32]
    norm_num [traffic_light]
  · intro rf ss dep h1 h2 h3 h4 h5 h6
    unfold overall_score
    constructor <;> [nlinarith; nlinarith]

/-- Witness for the bounds clause of C7 at component scores (80, 0, 0). -/
theorem repo_health_example_witness :
    0 ≤ overall_score ⟨4/10, 3/10, 3/10⟩ 80 0 0 ∧
      overall_score ⟨4/10, 3/10, 3/10⟩ 80 0 0 ≤ 100 :=
  repo_health_example.2.2.2 80 0 0 (by norm_num) (by norm_num) (by norm_num)
    (by norm_num) (by norm_num) (by norm_num)

/-- C8 counterexample: the code multiplies the weighted alert sum by 10
before subtracting — one alert of a severity weighted 1 scores 90, while the
claim's "100 minus the weighted sum, floored at 0" gives 99. -/
theorem dependabot_penalty_counterexample :
    alert_score [("critical", 1)] (fun _ => 1) = 90 ∧
    claimed_alert_score [("critical", 1)] (fun _ => 1) = 99 ∧
    alert_score [("critical", 1)] (fun _ => 1)
      ≠ claimed_alert_score [("critical", 1)] (fun _ => 1) := by
  have h1 : weighted_alert_sum [("critical", 1)] (fun _ => (1 : ℚ)) = 1 := by
    norm_num [weighted_alert_sum]
  refine ⟨?_, ?_, ?_⟩ <;>
    norm_num [alert_score, claimed_alert_score, h1]

/-- C8 (amended): the Dependabot alert penalty equals 100 minus ten times
the weighted sum of alert counts by severity (each count multiplied by its
configured severity weight), floored at 0; it is never negative, and never
exceeds 100 when the weighted sum is non-negative. -/
theorem dependabot_penalty_formula (weights : List (String × ℚ))
    (counts : String → ℚ) :
    alert_score weights counts
      = max 0 (100 - 10 * ((weights.map
          (fun sw => counts sw.1 * sw.2)).sum)) ∧
    0 ≤ alert_score weights counts ∧
    (0 ≤ weighted_alert_sum weights counts →
      alert_score weights counts ≤ 100) := by
  have key : ∀ (ws : List (String × ℚ)) (a : ℚ),
      ws.foldl (fun acc sw => acc + counts sw.1 * sw.2) a
        = a + ((ws.map (fun sw => counts sw.1 * sw.2)).sum) := by
    intro ws
    induction ws with
    | nil => intro a; simp
    | cons w ws ih =>
      intro a
      simp only [List.foldl_cons, List.map_cons, List.sum_cons, ih]
      ring
  have hsum : weighted_alert_sum weights counts
      = ((weights.map (fun sw => counts sw.1 * sw.2)).sum) := by
    unfold weighted_alert_sum
    rw [key weights 0, zero_add]
  refine ⟨?_, le_max_left 0 _, ?_⟩
  · unfold alert_score
    rw [hsum]
    congr 1
    ring
  · intro hpos
    unfold alert_score
    apply max_le (by norm_num)
    linarith

/-- Witness for C8's amended clauses at one severity of weight 2 and three
alerts: the score is `max 0 (100 - 10*6) = 40`. -/
theorem dependabot_penalty_formula_witness :
    alert_score [("high", 2)] (fun _ => 3)
      = max 0 (100 - 10 * (([("high", (2 : ℚ))].map
          (fun sw => (fun _ => (3 : ℚ)) sw.1 * sw.2)).sum)) ∧
    0 ≤ alert_score [("high", 2)] (fun _ => 3) ∧
    alert_score [("high", 2)] (fun _ => 3) ≤ 100 := by
  obtain ⟨h1, h2, h3⟩ :=
    dependabot_penalty_formula [("high", 2)] (fun _ => (3 : ℚ))
  exact ⟨h1, h2, h3 (by norm_num [weighted_alert_sum])⟩

/-- Per-iteration behaviour of the membership add/remove loops: the list of
attempted members is the whole batch regardless of which attempts fail, the
successes are precisely the non-failing members, the failures precisely the
failing ones. -/
theorem add_loop_spec (l : List String) (fails : String → Bool) :
    (add_loop l fails).attempted = l ∧
    (add_loop l fails).succeeded = l.filter (fun m => !fails m) ∧
    (add_loop l fails).failed = l.filter fails := by
  induction l with
  | nil => exact ⟨rfl, rfl, rfl⟩
  | cons m rest ih =>
    obtain ⟨ih1, ih2, ih3⟩ := ih
    by_cases h : fails m
    · refine ⟨?_, ?_, ?_⟩ <;> simp [add_loop, h, ih1, ih2, ih3]
    · have hf : fails m = false := by simpa using h
      refine ⟨?_, ?_, ?_⟩ <;> simp [add_loop, hf, ih1, ih2, ih3]

/-- C9: a remote-API failure while adding or removing one member is caught
and the loop continues — for any batch split as `pre ++ bad :: post` with
`bad` failing (e.g. a 404), every member of the batch is still attempted,
`bad` is merely logged as failed, and every non-failing member of `post` is
still processed successfully; a single failing username never aborts the
sync. -/
theorem single_failure_does_not_abort (pre post : List String) (bad : String)
    (fails : String → Bool) (hbad : fails bad = true) :
    (add_loop (pre ++ bad :: post) fails).attempted = pre ++ bad :: post ∧
    bad ∈ (add_loop (pre ++ bad :: post) fails).failed ∧
    (add_loop (pre ++ bad :: post) fails).succeeded
      = (pre ++ bad :: post).filter (fun m => !fails m) ∧
    (∀ m ∈ post, fails m = false →
      m ∈ (add_loop (pre ++ bad :: post) fails).succeeded) := by
  obtain ⟨h1, h2, h3⟩ := add_loop_spec (pre ++ bad :: post) fails
  refine ⟨h1, ?_, h2, ?_⟩
  · rw [h3]
    exact List.mem_filter.mpr ⟨by simp, hbad⟩
  · intro m hm hok
    rw [h2]
    exact List.mem_filter.mpr ⟨by simp [hm], by simp [hok]⟩

/-- Witness for C9 at the batch `["a", "b", "c"]` where only `"b"` fails. -/
theorem single_failure_does_not_abort_witness :
    (add_loop (["a"] ++ "b" :: ["c"]) (fun m => m == "b")).attempted
        = ["a"] ++ "b" :: ["c"] ∧
    "b" ∈ (add_loop (["a"] ++ "b" :: ["c"]) (fun m => m == "b")).failed ∧
    (add_loop (["a"] ++ "b" :: ["c"]) (fun m => m == "b")).succeeded
        = (["a"] ++ "b" :: ["c"]).filter (fun m => !(m == "b")) ∧
    (∀ m ∈ ["c"], (fun m => m == "b") m = false →
      m ∈ (add_loop (["a"] ++ "b" :: ["c"]) (fun m => m == "b")).succeeded) :=
  single_failure_does_not_abort ["a"] ["c"] "b" (fun m => m == "b")
    (by decide)

end TmyRepo
